import Mathlib

/-!
Verification of `demo/cast_clip.py`: a script that extracts a time-bounded
slice from an asciicast-style recording (one JSON header line followed by one
JSON array per event), rewriting timestamps relative to the slice start.

Modelling choices:
* JSON values are an inductive `Json`; numbers are exact rationals `ℚ`
  (the script's arithmetic on timestamps — comparison, subtraction, max —
  is modelled exactly).
* `json.loads` is an external library call; the pipeline is parametrised by a
  parse oracle `parseJson : String → Option Json` (`none` = raised
  `JSONDecodeError`).  Theorems about parse failures hold for every oracle.
* Python builtins used by the script (`float(...)`, `e[0]`, `e[0] = v`,
  `max(..., default=0.0)`, dict assignment `header["duration"] = v`) are
  modelled by `pyFloat`/`pyFloatStr`, `pyIndex0`, `setIndex0`, `pyMaxD`,
  `dictSet` below, each faithful to CPython on the JSON value domain
  (for `float` on strings: finite decimal literals, the format the tool's
  numeric fields use).
* An uncaught Python exception is a non-zero exit; it is modelled by
  `Except.error`.  The script opens the output file for writing only after
  argument parsing, input parsing and the whole transformation have
  succeeded, so `.ok out` carries the (parsed form of the) written file and
  `.error` means the output path was never created or modified.
-/

/-- JSON values, as produced by `json.loads`: objects are key/value lists
(`json.loads` yields dicts, so keys are distinct), numbers are rationals. -/
inductive Json where
  | null : Json
  | bool (b : Bool) : Json
  | num (q : ℚ) : Json
  | str (s : String) : Json
  | arr (elems : List Json) : Json
  | obj (entries : List (String × Json)) : Json

/-- Consume leading decimal digits of a character list, returning their value,
how many there were, and the remaining characters. -/
def takeDigits : List Char → ℕ × ℕ × List Char
  | [] => (0, 0, [])
  | c :: cs =>
    if c.isDigit then
      let r := takeDigits cs
      ((c.toNat - 48) * 10 ^ r.2.1 + r.1, r.2.1 + 1, r.2.2)
    else (0, 0, c :: cs)

/-- An optional leading sign; `true` means negative. -/
def takeSign : List Char → Bool × List Char
  | '-' :: cs => (true, cs)
  | '+' :: cs => (false, cs)
  | cs => (false, cs)

/-- Mantissa of a float literal: digits with an optional decimal point,
at least one digit overall. -/
def takeMantissa (cs : List Char) : Option (ℚ × List Char) :=
  let ri := takeDigits cs
  match ri.2.2 with
  | '.' :: cs2 =>
    let rf := takeDigits cs2
    if ri.2.1 = 0 ∧ rf.2.1 = 0 then none
    else some ((ri.1 : ℚ) + (rf.1 : ℚ) / (10 ^ rf.2.1 : ℚ), rf.2.2)
  | _ => if ri.2.1 = 0 then none else some ((ri.1 : ℚ), ri.2.2)

/-- Exponent part of a float literal (or the empty remainder). -/
def takeExponent : List Char → Option ℤ
  | [] => some 0
  | c :: cs =>
    if c = 'e' ∨ c = 'E' then
      let sg := takeSign cs
      let rd := takeDigits sg.2
      if rd.2.1 = 0 ∨ rd.2.2 ≠ [] then none
      else some (if sg.1 then -(rd.1 : ℤ) else (rd.1 : ℤ))
    else none

/-- Model of Python `str.strip()`: remove leading and trailing whitespace. -/
def pyStrip (cs : List Char) : List Char :=
  ((cs.dropWhile Char.isWhitespace).reverse.dropWhile Char.isWhitespace).reverse

/-- Model of CPython `float(s)` on finite decimal literals: optional
surrounding whitespace, optional sign, digits with optional fraction and
optional exponent.  (`inf`/`nan` and digit underscores, which the recording
format does not use, are outside the model.) -/
def pyFloatStr (s : String) : Option ℚ :=
  let cs := pyStrip s.toList
  let sg := takeSign cs
  match takeMantissa sg.2 with
  | none => none
  | some (m, rest) =>
    match takeExponent rest with
    | none => none
    | some ex =>
      let v := m * (10 : ℚ) ^ ex
      some (if sg.1 then -v else v)

/-- Model of CPython `float(x)` on a JSON value: numbers are themselves,
booleans are `0`/`1` (Python `bool` is an `int`), strings go through float
parsing; `None`, lists and dicts raise `TypeError` (`none`). -/
def pyFloat : Json → Option ℚ
  | .num q => some q
  | .bool b => some (if b then 1 else 0)
  | .str s => pyFloatStr s
  | _ => none

/-- Model of CPython `x[0]` on a JSON value: list indexing, string indexing
(first character, as a 1-character string); numbers, booleans and `None` raise
`TypeError`, an empty list or string raises `IndexError`, and a dict loaded
from JSON has only string keys so `d[0]` raises `KeyError` — all `none`. -/
def pyIndex0 : Json → Option Json
  | .arr (x :: _) => some x
  | .str s => if s.isEmpty then none else some (.str (String.mk [s.get 0]))
  | _ => none

/-- Errors that abort the run (uncaught Python exceptions, hence a non-zero
exit with no output file written). -/
inductive RunError where
  | argErr   : RunError  -- IndexError on sys.argv / ValueError from float(argv[i])
  | ioErr    : RunError  -- input file cannot be opened
  | parseErr : RunError  -- json.loads failure
  | typeErr  : RunError  -- e[0] lookup / item assignment / header["duration"] on a non-dict
  | floatErr : RunError  -- float(e[0]) failure
deriving DecidableEq

/-- Model of CPython `e[0] = v`: succeeds on a non-empty list, replacing the
head; raises `TypeError` on anything else (strings are immutable). -/
def setIndex0 (e v : Json) : Except RunError Json :=
  match e with
  | .arr (_ :: rest) => .ok (.arr (v :: rest))
  | _ => .error .typeErr

/-- The timestamp the script reads from an event: `float(e[0])`. -/
def time0 (e : Json) : Option ℚ :=
  (pyIndex0 e).bind pyFloat

/-- The clipping loop of `cast_clip.py`:
`for e in events: t = float(e[0]); if start_s <= t <= end_s: e[0] = t - start_s; clipped.append(e)`.
Any raised exception aborts the whole run before anything is written. -/
def clipEvents (start_s end_s : ℚ) : List Json → Except RunError (List Json)
  | [] => .ok []
  | ev :: rest =>
    match pyIndex0 ev with
    | none => .error .typeErr
    | some e0 =>
      match pyFloat e0 with
      | none => .error .floatErr
      | some t =>
        if start_s ≤ t ∧ t ≤ end_s then
          match setIndex0 ev (.num (t - start_s)) with
          | .error err => .error err
          | .ok ev' =>
            match clipEvents start_s end_s rest with
            | .error err => .error err
            | .ok tail => .ok (ev' :: tail)
        else clipEvents start_s end_s rest

/-- Model of Python `max(l, default=d)`. -/
def pyMaxD (d : ℚ) : List ℚ → ℚ
  | [] => d
  | x :: xs => xs.foldl max x

/-- `max([e[0] for e in clipped], default=0.0)`.  Every event produced by the
clipping loop has a numeric element 0, which `time0` extracts. -/
def durationOf (clipped : List Json) : ℚ :=
  pyMaxD 0 (clipped.filterMap time0)

/-- Model of CPython dict assignment `d[k] = v` on a JSON object: if the key
is present its value is replaced in place, otherwise the pair is appended.
(`json.loads` yields dicts, so keys are distinct.) -/
def dictSet (kvs : List (String × Json)) (k : String) (v : Json) : List (String × Json) :=
  if kvs.any (fun p => p.1 = k) then
    kvs.map (fun p => if p.1 = k then (k, v) else p)
  else kvs ++ [(k, v)]

/-- First-match association lookup. -/
def assocFind (k : String) : List (String × Json) → Option Json
  | [] => none
  | p :: rest => if p.1 = k then some p.2 else assocFind k rest

/-- Key lookup in a JSON object; `none` on any other JSON value. -/
def jLookup (j : Json) (k : String) : Option Json :=
  match j with
  | .obj kvs => assocFind k kvs
  | _ => none

/-- `header["duration"] = ...`: succeeds only when the header parsed to a JSON
object (a dict); on any other value CPython raises `TypeError`. -/
def setDuration (h : Json) (d : ℚ) : Except RunError Json :=
  match h with
  | .obj kvs => .ok (.obj (dictSet kvs "duration" (.num d)))
  | _ => .error .typeErr

/-- A parsed recording: the header value and the event values, in file order. -/
structure Recording where
  header : Json
  events : List Json

/-- The transformation on a parsed recording: clip & retime the events, then
overwrite `duration` with the maximum retained timestamp (default `0.0`). -/
def clipRecording (start_s end_s : ℚ) (r : Recording) : Except RunError Recording :=
  match clipEvents start_s end_s r.events with
  | .error err => .error err
  | .ok clipped =>
    match setDuration r.header (durationOf clipped) with
    | .error err => .error err
    | .ok h' => .ok ⟨h', clipped⟩

/-- `[json.loads(line) for line in f if line.strip()]`: parse every non-blank
line after the header; the first failure aborts the run. -/
def parseEvents (parseJson : String → Option Json) : List String → Except RunError (List Json)
  | [] => .ok []
  | l :: ls =>
    if pyStrip l.toList = [] then parseEvents parseJson ls
    else
      match parseJson l with
      | none => .error .parseErr
      | some j =>
        match parseEvents parseJson ls with
        | .error err => .error err
        | .ok rest => .ok (j :: rest)

/-- The whole run of `cast_clip.py`, parametrised by the `json.loads` oracle
and the file system (`fs path = some lines` when `path` opens as a text file
with those lines).  `sys.argv[1..4]` are read in order — missing entries raise
`IndexError`, a non-float bound raises `ValueError`, and entries past
`sys.argv[4]` are never read.  `.ok out` is the recording written to the
output path; on `.error` the script dies before `open(outp, "w")`, so the
output path is never created or modified. -/
def runClip (parseJson : String → Option Json) (fs : String → Option (List String))
    (argv : List String) : Except RunError Recording :=
  match argv with
  | _prog :: inp :: _outp :: sArg :: eArg :: _rest =>
    match pyFloatStr sArg, pyFloatStr eArg with
    | some start_s, some end_s =>
      match fs inp with
      | none => .error .ioErr
      | some lines =>
        match parseJson (lines.headD "") with
        | none => .error .parseErr
        | some header =>
          match parseEvents parseJson lines.tail with
          | .error err => .error err
          | .ok events => clipRecording start_s end_s ⟨header, events⟩
    | _, _ => .error .argErr
  | _ => .error .argErr

/-- What the clipping loop does to a single event, as a partial map: `none`
when the event is dropped (timestamp out of range) — and also when the loop
would instead raise, a case excluded whenever the loop as a whole returns
`.ok`. -/
def keepEv (start_s end_s : ℚ) (ev : Json) : Option Json :=
  (time0 ev).bind fun t =>
    if start_s ≤ t ∧ t ≤ end_s then (setIndex0 ev (.num (t - start_s))).toOption
    else none

/-- The timestamp shift alone (element 0 becomes `t - start_s`), leaving
events it cannot apply to unchanged. -/
def shiftEv (start_s : ℚ) (ev : Json) : Json :=
  match time0 ev, ev with
  | some t, .arr (_ :: rest) => .arr (.num (t - start_s) :: rest)
  | _, _ => ev

/-! Concrete fixtures used by witnesses and counterexamples.  The parse
oracles below agree with `json.loads` on every line they are applied to. -/

/-- A two-line recording: header `\x7b\x7d`, one output event at `t = 0.5`. -/
def demoLines : List String := ["\x7b\x7d", "[0.5,\"o\",\"hi\"]"]

/-- Parse oracle for `demoLines`. -/
def demoParseJson : String → Option Json := fun l =>
  if l = "\x7b\x7d" then some (.obj [])
  else if l = "[0.5,\"o\",\"hi\"]" then some (.arr [.num (1/2), .str "o", .str "hi"])
  else none

/-- File system holding `demoLines` at `in.cast`. -/
def demoFs : String → Option (List String) := fun p =>
  if p = "in.cast" then some demoLines else none

/-- A recording whose single event carries its timestamp as the JSON string
`"1.5"` rather than a number. -/
def strTimeLines : List String := ["\x7b\x7d", "[\"1.5\",\"o\",\"x\"]"]

/-- Parse oracle for `strTimeLines`. -/
def strTimeParseJson : String → Option Json := fun l =>
  if l = "\x7b\x7d" then some (.obj [])
  else if l = "[\"1.5\",\"o\",\"x\"]" then some (.arr [.str "1.5", .str "o", .str "x"])
  else none

/-- File system holding `strTimeLines` at `rec.cast`. -/
def strTimeFs : String → Option (List String) := fun p =>
  if p = "rec.cast" then some strTimeLines else none

/-- The three-event recording of the spec's round-trip scenario. -/
def sampleEvents : List Json :=
  [.arr [.num 0, .str "o", .str "a"],
   .arr [.num 1, .str "o", .str "b"],
   .arr [.num 2, .str "o", .str "c"]]

/-- The spec's round-trip scenario input recording. -/
def sampleRec : Recording := ⟨.obj [("version", .num 2)], sampleEvents⟩

/-- The result of clipping `sampleRec` to `[1, 2]`. -/
def sampleClip : Recording :=
  ⟨.obj [("version", .num 2), ("duration", .num 1)],
   [.arr [.num 0, .str "o", .str "b"], .arr [.num 1, .str "o", .str "c"]]⟩

/-- A recording used for the start > end witness. -/
def lateRec : Recording := ⟨.obj [], [.arr [.num 1, .str "o", .str "a"]]⟩

/-- A recording with metadata but no events. -/
def metaRec : Recording := ⟨.obj [("version", .num 2), ("width", .num 80)], []⟩

/-- The result of clipping `metaRec` (no events survive, metadata kept). -/
def metaClip : Recording :=
  ⟨.obj [("version", .num 2), ("width", .num 80), ("duration", .num 0)], []⟩

/-- A recording whose event line is not JSON. -/
def badLines : List String := ["\x7b\x7d", "oops"]

/-- Parse oracle for `badLines`: the event line fails to parse, as it would
under `json.loads`. -/
def badParseJson : String → Option Json := fun l =>
  if l = "\x7b\x7d" then some (.obj []) else none

/-- File system holding `badLines` at `in.cast`. -/
def badFs : String → Option (List String) := fun p =>
  if p = "in.cast" then some badLines else none

/-! ### Helper lemmas -/

theorem setIndex0_ok {ev v ev' : Json} (h : setIndex0 ev v = .ok ev') :
    ∃ x rest, ev = .arr (x :: rest) ∧ ev' = .arr (v :: rest) := by
  cases ev with
  | arr elems =>
    cases elems with
    | nil => exact absurd h (by simp [setIndex0])
    | cons x rest =>
      refine ⟨x, rest, rfl, ?_⟩
      simpa [setIndex0] using h.symm
  | null => exact absurd h (by simp [setIndex0])
  | bool b => exact absurd h (by simp [setIndex0])
  | num q => exact absurd h (by simp [setIndex0])
  | str s => exact absurd h (by simp [setIndex0])
  | obj kvs => exact absurd h (by simp [setIndex0])

theorem clipEvents_ok_eq (start_s end_s : ℚ) (evs : List Json) :
    ∀ out, clipEvents start_s end_s evs = .ok out →
      out = evs.filterMap (keepEv start_s end_s) := by
  induction evs with
  | nil =>
    intro out h
    simp only [clipEvents] at h
    cases h
    simp
  | cons ev rest ih =>
    intro out h
    simp only [clipEvents] at h
    cases hidx : pyIndex0 ev with
    | none => simp [hidx] at h
    | some e0 =>
      simp only [hidx] at h
      cases hfl : pyFloat e0 with
      | none => simp [hfl] at h
      | some t =>
        simp only [hfl] at h
        by_cases hin : start_s ≤ t ∧ t ≤ end_s
        · rw [if_pos hin] at h
          cases hset : setIndex0 ev (.num (t - start_s)) with
          | error err => simp [hset] at h
          | ok ev' =>
            simp only [hset] at h
            cases hrec : clipEvents start_s end_s rest with
            | error err => simp [hrec] at h
            | ok tail =>
              simp only [hrec, Except.ok.injEq] at h
              subst h
              rw [List.filterMap_cons]
              have hk : keepEv start_s end_s ev = some ev' := by
                simp [keepEv, time0, hidx, hfl, hin, hset, Except.toOption]
              rw [hk, ← ih tail hrec]
        · rw [if_neg hin] at h
          rw [List.filterMap_cons]
          have hk : keepEv start_s end_s ev = none := by
            simp [keepEv, time0, hidx, hfl, hin]
          rw [hk]
          exact ih out h

theorem keepEv_some {start_s end_s : ℚ} {ev ev' : Json}
    (h : keepEv start_s end_s ev = some ev') :
    ∃ t x rest, ev = .arr (x :: rest) ∧ time0 ev = some t ∧
      start_s ≤ t ∧ t ≤ end_s ∧ ev' = .arr (.num (t - start_s) :: rest) := by
  cases ht : time0 ev with
  | none => simp [keepEv, ht] at h
  | some t =>
    simp only [keepEv, ht, Option.bind] at h
    by_cases hin : start_s ≤ t ∧ t ≤ end_s
    · rw [if_pos hin] at h
      cases hset : setIndex0 ev (.num (t - start_s)) with
      | error err => rw [hset] at h; cases h
      | ok w =>
        rw [hset] at h
        simp only [Except.toOption, Option.some.injEq] at h
        obtain ⟨x, rest, hev, hw⟩ := setIndex0_ok hset
        exact ⟨t, x, rest, hev, rfl, hin.1, hin.2, by rw [← h, hw]⟩
    · rw [if_neg hin] at h
      cases h

theorem clipEvents_ok_mem {start_s end_s : ℚ} {evs out : List Json}
    (h : clipEvents start_s end_s evs = .ok out) {ev : Json} (hm : ev ∈ out) :
    ∃ u rest, ev = .arr (.num u :: rest) ∧ time0 ev = some u ∧
      0 ≤ u ∧ u + start_s ≤ end_s := by
  rw [clipEvents_ok_eq start_s end_s evs out h] at hm
  obtain ⟨src, _, hk⟩ := List.mem_filterMap.1 hm
  obtain ⟨t, x, rest, _, _, h1, h2, hev⟩ := keepEv_some hk
  refine ⟨t - start_s, rest, hev, ?_, by linarith, by linarith⟩
  rw [hev]
  simp [time0, pyIndex0, pyFloat]

theorem init_le_foldl_max : ∀ (l : List ℚ) (a : ℚ), a ≤ l.foldl max a := by
  intro l
  induction l with
  | nil => intro a; simp
  | cons b bs ih =>
    intro a
    exact le_trans (le_max_left a b) (ih (max a b))

theorem mem_le_foldl_max : ∀ (l : List ℚ) (a x : ℚ), x ∈ l → x ≤ l.foldl max a := by
  intro l
  induction l with
  | nil => intro a x hx; cases hx
  | cons b bs ih =>
    intro a x hx
    rcases List.mem_cons.1 hx with h | h
    · subst h
      exact le_trans (le_max_right a x) (init_le_foldl_max bs _)
    · exact ih _ x h

theorem foldl_max_mem : ∀ (l : List ℚ) (a : ℚ), l.foldl max a = a ∨ l.foldl max a ∈ l := by
  intro l
  induction l with
  | nil => intro a; left; rfl
  | cons b bs ih =>
    intro a
    rcases ih (max a b) with h | h
    · simp only [List.foldl_cons]
      rcases max_choice a b with he | he
    -- foldl max a (b :: bs) = foldl max (max a b) bs = max a b
      · left; rw [h, he]
      · right; rw [h, he]; exact List.mem_cons_self b bs
    · right
      exact List.mem_cons_of_mem b h

theorem le_pyMaxD {x : ℚ} {l : List ℚ} (d : ℚ) (hx : x ∈ l) : x ≤ pyMaxD d l := by
  cases l with
  | nil => cases hx
  | cons y ys =>
    rcases List.mem_cons.1 hx with h | h
    · subst h; exact init_le_foldl_max ys x
    · exact mem_le_foldl_max ys y x h

theorem pyMaxD_mem {l : List ℚ} (d : ℚ) (hne : l ≠ []) : pyMaxD d l ∈ l := by
  cases l with
  | nil => exact absurd rfl hne
  | cons y ys =>
    rcases foldl_max_mem ys y with h | h
    · rw [pyMaxD, h]; exact List.mem_cons_self y ys
    · rw [pyMaxD]; exact List.mem_cons_of_mem y h

theorem not_any_key {kvs : List (String × Json)} {k : String}
    (hany : ¬ kvs.any (fun p => p.1 = k)) : ∀ p ∈ kvs, ¬ p.1 = k := by
  intro p hp hpk
  exact hany (List.any_eq_true.2 ⟨p, hp, decide_eq_true hpk⟩)

theorem map_replace_of_no_key (k : String) (v : Json) :
    ∀ kvs : List (String × Json), (∀ p ∈ kvs, ¬ p.1 = k) →
      kvs.map (fun p => if p.1 = k then (k, v) else p) = kvs := by
  intro kvs
  induction kvs with
  | nil => intro _; rfl
  | cons p rest ih =>
    intro hno
    rw [List.map_cons, if_neg (hno p (List.mem_cons_self p rest)),
      ih (fun q hq => hno q (List.mem_cons_of_mem p hq))]

theorem assocFind_map_replace (k : String) (v : Json) :
    ∀ kvs : List (String × Json), kvs.any (fun p => p.1 = k) = true →
      assocFind k (kvs.map (fun p => if p.1 = k then (k, v) else p)) = some v := by
  intro kvs
  induction kvs with
  | nil => intro h; simp at h
  | cons p rest ih =>
    intro hany
    by_cases hp : p.1 = k
    · simp [assocFind, hp]
    · rw [List.map_cons, if_neg hp, assocFind, if_neg hp]
      apply ih
      rcases List.any_eq_true.1 hany with ⟨q, hq, hqk⟩
      rcases List.mem_cons.1 hq with h | h
      · subst h; exact absurd (of_decide_eq_true hqk) hp
      · exact List.any_eq_true.2 ⟨q, h, hqk⟩

theorem assocFind_append_single (k : String) (v : Json) :
    ∀ kvs : List (String × Json), (∀ p ∈ kvs, ¬ p.1 = k) →
      assocFind k (kvs ++ [(k, v)]) = some v := by
  intro kvs
  induction kvs with
  | nil => intro _; simp [assocFind]
  | cons p rest ih =>
    intro hno
    rw [List.cons_append, assocFind, if_neg (hno p (List.mem_cons_self p rest))]
    exact ih (fun q hq => hno q (List.mem_cons_of_mem p hq))

theorem assocFind_dictSet_self (k : String) (v : Json) (kvs : List (String × Json)) :
    assocFind k (dictSet kvs k v) = some v := by
  unfold dictSet
  by_cases hany : kvs.any (fun p => p.1 = k)
  · rw [if_pos hany]
    exact assocFind_map_replace k v kvs hany
  · rw [if_neg hany]
    exact assocFind_append_single k v kvs (not_any_key hany)

theorem assocFind_map_replace_ne (k k' : String) (v : Json) (hne : k' ≠ k) :
    ∀ kvs : List (String × Json),
      assocFind k' (kvs.map (fun p => if p.1 = k then (k, v) else p))
        = assocFind k' kvs := by
  intro kvs
  induction kvs with
  | nil => rfl
  | cons p rest ih =>
    by_cases hp : p.1 = k
    · rw [List.map_cons, if_pos hp, assocFind, assocFind,
        if_neg (fun h => hne h.symm), if_neg (by rw [hp]; exact fun h => hne h.symm)]
      exact ih
    · rw [List.map_cons, if_neg hp, assocFind, assocFind]
      by_cases hp' : p.1 = k'
      · rw [if_pos hp', if_pos hp']
      · rw [if_neg hp', if_neg hp']
        exact ih

theorem assocFind_append_single_ne (k k' : String) (v : Json) (hne : k' ≠ k) :
    ∀ kvs : List (String × Json),
      assocFind k' (kvs ++ [(k, v)]) = assocFind k' kvs := by
  intro kvs
  induction kvs with
  | nil =>
    simp only [List.nil_append, assocFind]
    rw [if_neg (fun h => hne h.symm)]
  | cons p rest ih =>
    rw [List.cons_append, assocFind, assocFind]
    by_cases hp' : p.1 = k'
    · rw [if_pos hp', if_pos hp']
    · rw [if_neg hp', if_neg hp']
      exact ih

theorem assocFind_dictSet_ne (k k' : String) (v : Json) (hne : k' ≠ k)
    (kvs : List (String × Json)) :
    assocFind k' (dictSet kvs k v) = assocFind k' kvs := by
  unfold dictSet
  by_cases hany : kvs.any (fun p => p.1 = k)
  · rw [if_pos hany]
    exact assocFind_map_replace_ne k k' v hne kvs
  · rw [if_neg hany]
    exact assocFind_append_single_ne k k' v hne kvs

theorem dictSet_any (kvs : List (String × Json)) (k : String) (v : Json) :
    (dictSet kvs k v).any (fun p => p.1 = k) = true := by
  unfold dictSet
  by_cases hany : kvs.any (fun p => p.1 = k)
  · rw [if_pos hany]
    rcases List.any_eq_true.1 hany with ⟨q, hq, hqk⟩
    apply List.any_eq_true.2
    refine ⟨(k, v), ?_, by simp⟩
    apply List.mem_map.2
    exact ⟨q, hq, by rw [if_pos (of_decide_eq_true hqk)]⟩
  · rw [if_neg hany]
    apply List.any_eq_true.2
    exact ⟨(k, v), List.mem_append_right _ (List.mem_cons_self _ _), by simp⟩

theorem dictSet_map_self (k : String) (v : Json) :
    ∀ kvs : List (String × Json),
      (kvs.map (fun p => if p.1 = k then (k, v) else p)).map
          (fun p => if p.1 = k then (k, v) else p)
        = kvs.map (fun p => if p.1 = k then (k, v) else p) := by
  intro kvs
  induction kvs with
  | nil => rfl
  | cons p rest ih =>
    simp only [List.map_cons, ih]
    by_cases hp : p.1 = k
    · rw [if_pos hp, if_pos rfl]
    · rw [if_neg hp, if_neg hp]

theorem dictSet_dictSet (kvs : List (String × Json)) (k : String) (v : Json) :
    dictSet (dictSet kvs k v) k v = dictSet kvs k v := by
  conv_lhs => rw [dictSet]
  rw [if_pos (dictSet_any kvs k v)]
  unfold dictSet
  by_cases hany : kvs.any (fun p => p.1 = k)
  · rw [if_pos hany]
    exact dictSet_map_self k v kvs
  · rw [if_neg hany, List.map_append,
      map_replace_of_no_key k v kvs (not_any_key hany)]
    simp

theorem parseEvents_of_bad_line (parseJson : String → Option Json) :
    ∀ ls : List String, (∃ l ∈ ls, pyStrip l.toList ≠ [] ∧ parseJson l = none) →
      parseEvents parseJson ls = .error .parseErr := by
  intro ls
  induction ls with
  | nil =>
    rintro ⟨l, hl, -⟩
    cases hl
  | cons x xs ih =>
    rintro ⟨l, hl, hblank, hbad⟩
    simp only [parseEvents]
    by_cases hx : pyStrip x.toList = []
    · rw [if_pos hx]
      apply ih
      rcases List.mem_cons.1 hl with rfl | h
      · exact absurd hx hblank
      · exact ⟨l, h, hblank, hbad⟩
    · rw [if_neg hx]
      cases hpx : parseJson x with
      | none => rfl
      | some j =>
        have hxs : ∃ l ∈ xs, pyStrip l.toList ≠ [] ∧ parseJson l = none := by
          rcases List.mem_cons.1 hl with rfl | h
          · rw [hpx] at hbad; cases hbad
          · exact ⟨l, h, hblank, hbad⟩
        rw [ih hxs]

theorem clipEvents_empty_of_gt {start_s end_s : ℚ} (hgt : end_s < start_s) :
    ∀ evs : List Json, (∀ ev ∈ evs, ∃ t, time0 ev = some t) →
      clipEvents start_s end_s evs = .ok [] := by
  intro evs
  induction evs with
  | nil => intro _; rfl
  | cons ev rest ih =>
    intro hw
    obtain ⟨t, ht⟩ := hw ev (List.mem_cons_self _ _)
    unfold time0 at ht
    cases hidx : pyIndex0 ev with
    | none => rw [hidx] at ht; cases ht
    | some e0 =>
      rw [hidx] at ht
      simp only [Option.bind] at ht
      simp only [clipEvents, hidx, ht]
      rw [if_neg (fun hin => absurd (le_trans hin.1 hin.2) (not_le.2 hgt))]
      exact ih (fun e he => hw e (List.mem_cons_of_mem _ he))

theorem clipEvents_id {d : ℚ} :
    ∀ evs : List Json,
      (∀ ev ∈ evs, ∃ t rest, ev = .arr (.num t :: rest) ∧ 0 ≤ t ∧ t ≤ d) →
      clipEvents 0 d evs = .ok evs := by
  intro evs
  induction evs with
  | nil => intro _; rfl
  | cons ev rest ih =>
    intro hw
    obtain ⟨t, r', hev, h0, hd⟩ := hw ev (List.mem_cons_self _ _)
    subst hev
    simp only [clipEvents, pyIndex0, pyFloat]
    rw [if_pos ⟨h0, hd⟩]
    simp only [setIndex0, sub_zero]
    rw [ih (fun e he => hw e (List.mem_cons_of_mem _ he))]

theorem clipRecording_ok {start_s end_s : ℚ} {r out : Recording}
    (h : clipRecording start_s end_s r = .ok out) :
    ∃ clipped kvs, clipEvents start_s end_s r.events = .ok clipped
      ∧ r.header = .obj kvs
      ∧ out = ⟨.obj (dictSet kvs "duration" (.num (durationOf clipped))), clipped⟩ := by
  unfold clipRecording at h
  cases hce : clipEvents start_s end_s r.events with
  | error err => rw [hce] at h; cases h
  | ok clipped =>
    rw [hce] at h
    simp only [setDuration] at h
    cases hh : r.header with
    | obj kvs =>
      rw [hh] at h
      cases h
      exact ⟨clipped, kvs, rfl, rfl, rfl⟩
    | null => rw [hh] at h; cases h
    | bool b => rw [hh] at h; cases h
    | num q => rw [hh] at h; cases h
    | str s => rw [hh] at h; cases h
    | arr elems => rw [hh] at h; cases h

/-! ### Claims -/

/-- Claim C1: when the clipping loop completes, an input event is emitted if
and only if its timestamp `t` satisfies `start_s ≤ t ≤ end_s`, with element 0
replaced by `t - start_s` (the partial map `keepEv`); an event whose
timestamp is exactly `start_s` is emitted with timestamp `0`; and when
`start_s = end_s` the output is exactly the input events with timestamp
`start_s`, each shifted to `0`. -/
theorem clip_emits_iff_in_range (start_s end_s : ℚ) (evs out : List Json)
    (h : clipEvents start_s end_s evs = .ok out) :
    out = evs.filterMap (keepEv start_s end_s)
    ∧ (∀ rest, keepEv start_s end_s (.arr (.num start_s :: rest))
        = if start_s ≤ end_s then some (.arr (.num 0 :: rest)) else none)
    ∧ (start_s = end_s →
        out = evs.filterMap (fun ev => (time0 ev).bind fun t =>
          if t = start_s then (setIndex0 ev (.num 0)).toOption else none)) := by
  refine ⟨clipEvents_ok_eq start_s end_s evs out h, ?_, ?_⟩
  · intro rest
    by_cases hle : start_s ≤ end_s
    · rw [if_pos hle]
      simp [keepEv, time0, pyIndex0, pyFloat, Option.bind, le_refl, hle,
        setIndex0, Except.toOption, sub_self]
    · rw [if_neg hle]
      simp [keepEv, time0, pyIndex0, pyFloat, Option.bind, hle]
  · intro hse
    subst hse
    rw [clipEvents_ok_eq start_s start_s evs out h]
    have hfun : keepEv start_s start_s = (fun ev => (time0 ev).bind fun t =>
        if t = start_s then (setIndex0 ev (.num 0)).toOption else none) := by
      funext ev
      cases ht : time0 ev with
      | none => simp [keepEv, ht]
      | some t =>
        simp only [keepEv, ht, Option.bind]
        by_cases hts : t = start_s
        · subst hts
          rw [if_pos ⟨le_refl t, le_refl t⟩, if_pos rfl, sub_self]
        · rw [if_neg (fun hin => hts (le_antisymm hin.2 hin.1)), if_neg hts]
    rw [hfun]

/-- Witness for C1: the spec's round-trip scenario, clipping to `[1, 2]`. -/
theorem clip_emits_iff_in_range_witness :
    clipEvents 1 2 sampleEvents = .ok sampleClip.events
    ∧ (sampleClip.events = sampleEvents.filterMap (keepEv 1 2)
      ∧ (∀ rest, keepEv 1 2 (.arr (.num 1 :: rest))
          = if (1:ℚ) ≤ 2 then some (.arr (.num 0 :: rest)) else none)
      ∧ ((1:ℚ) = 2 →
          sampleClip.events = sampleEvents.filterMap (fun ev => (time0 ev).bind fun t =>
            if t = 1 then (setIndex0 ev (.num 0)).toOption else none))) :=
  ⟨by with_unfolding_all rfl,
   clip_emits_iff_in_range 1 2 sampleEvents sampleClip.events (by with_unfolding_all rfl)⟩

/-- Claim C2: with bounds `0 ≤ start_s ≤ end_s`, every event the loop emits
has its (post-shift) timestamp in the closed interval `[0, end_s - start_s]`. -/
theorem clip_timestamps_bounded (start_s end_s : ℚ) (_h0 : 0 ≤ start_s)
    (_hse : start_s ≤ end_s) (evs out : List Json)
    (h : clipEvents start_s end_s evs = .ok out) :
    ∀ ev ∈ out, ∃ u, time0 ev = some u ∧ 0 ≤ u ∧ u ≤ end_s - start_s := by
  intro ev hm
  obtain ⟨u, rest, hev, hu, h0u, hub⟩ := clipEvents_ok_mem h hm
  exact ⟨u, hu, h0u, by linarith⟩

/-- Witness for C2 at the spec's round-trip scenario. -/
theorem clip_timestamps_bounded_witness :
    (0:ℚ) ≤ 1 ∧ (1:ℚ) ≤ 2
    ∧ ∀ ev ∈ sampleClip.events, ∃ u, time0 ev = some u ∧ 0 ≤ u ∧ u ≤ 2 - 1 :=
  ⟨by with_unfolding_all decide, by with_unfolding_all decide,
   clip_timestamps_bounded 1 2 (by with_unfolding_all decide)
     (by with_unfolding_all decide) sampleEvents sampleClip.events
     (by with_unfolding_all rfl)⟩

/-- Claim C3: the `duration` entry of the output header is the maximum
post-shift timestamp among the retained events, and `0` when no event was
retained. -/
theorem duration_eq_max_or_zero (start_s end_s : ℚ) (r out : Recording)
    (h : clipRecording start_s end_s r = .ok out) :
    (out.events = [] → jLookup out.header "duration" = some (.num 0))
    ∧ (out.events ≠ [] →
        ∃ d, jLookup out.header "duration" = some (.num d)
          ∧ d ∈ out.events.filterMap time0
          ∧ ∀ u ∈ out.events.filterMap time0, u ≤ d) := by
  obtain ⟨clipped, kvs, hce, hh, hout⟩ := clipRecording_ok h
  subst hout
  dsimp only
  constructor
  · intro hempty
    subst hempty
    simp [jLookup, durationOf, pyMaxD, assocFind_dictSet_self]
  · intro hne
    refine ⟨durationOf clipped, ?_, ?_, ?_⟩
    · simp [jLookup, assocFind_dictSet_self]
    · unfold durationOf
      apply pyMaxD_mem
      cases clipped with
      | nil => exact absurd rfl hne
      | cons c rest =>
        obtain ⟨u, r', hev, hu, -, -⟩ := clipEvents_ok_mem hce (List.mem_cons_self c rest)
        simp [List.filterMap_cons, hu]
    · intro u hu
      unfold durationOf
      exact le_pyMaxD 0 hu

/-- Witness for C3 at the spec's round-trip scenario. -/
theorem duration_eq_max_or_zero_witness :
    clipRecording 1 2 sampleRec = .ok sampleClip
    ∧ ((sampleClip.events = [] → jLookup sampleClip.header "duration" = some (.num 0))
      ∧ (sampleClip.events ≠ [] →
          ∃ d, jLookup sampleClip.header "duration" = some (.num d)
            ∧ d ∈ sampleClip.events.filterMap time0
            ∧ ∀ u ∈ sampleClip.events.filterMap time0, u ≤ d)) :=
  ⟨by with_unfolding_all rfl,
   duration_eq_max_or_zero 1 2 sampleRec sampleClip (by with_unfolding_all rfl)⟩

/-- Claim C4: the emitted events form a sublist (subsequence) of the input
events after the timestamp shift: relative order preserved, no duplication,
no reordering. -/
theorem clip_output_sublist (start_s end_s : ℚ) (evs out : List Json)
    (h : clipEvents start_s end_s evs = .ok out) :
    out.Sublist (evs.map (shiftEv start_s)) := by
  induction evs generalizing out with
  | nil =>
    simp only [clipEvents] at h
    cases h
    simp
  | cons ev rest ih =>
    simp only [clipEvents] at h
    cases hidx : pyIndex0 ev with
    | none => simp [hidx] at h
    | some e0 =>
      simp only [hidx] at h
      cases hfl : pyFloat e0 with
      | none => simp [hfl] at h
      | some t =>
        simp only [hfl] at h
        by_cases hin : start_s ≤ t ∧ t ≤ end_s
        · rw [if_pos hin] at h
          cases hset : setIndex0 ev (.num (t - start_s)) with
          | error err => simp [hset] at h
          | ok ev' =>
            simp only [hset] at h
            cases hrec : clipEvents start_s end_s rest with
            | error err => simp [hrec] at h
            | ok tail =>
              simp only [hrec, Except.ok.injEq] at h
              subst h
              rw [List.map_cons]
              have hev' : ev' = shiftEv start_s ev := by
                obtain ⟨x, r', hev, hw⟩ := setIndex0_ok hset
                subst hev
                have hx : x = e0 := by simpa [pyIndex0] using hidx
                subst hx
                rw [hw]
                simp [shiftEv, time0, pyIndex0, Option.bind, hfl]
              rw [hev']
              exact List.Sublist.cons₂ _ (ih tail hrec)
        · rw [if_neg hin] at h
          rw [List.map_cons]
          exact List.Sublist.cons _ (ih out h)

/-- Witness for C4 at the spec's round-trip scenario. -/
theorem clip_output_sublist_witness :
    clipEvents 1 2 sampleEvents = .ok sampleClip.events
    ∧ sampleClip.events.Sublist (sampleEvents.map (shiftEv 1)) :=
  ⟨by with_unfolding_all rfl,
   clip_output_sublist 1 2 sampleEvents sampleClip.events (by with_unfolding_all rfl)⟩

/-- Claim C5: if the header line, or any non-blank event line, of the input
fails to parse as JSON, the run aborts with a parse error; since the script
opens the output path only after all parsing and transformation succeed
(`.ok`), the output file is never created or modified.  This holds for every
parse oracle, i.e. for whatever `json.loads` rejects. -/
theorem parse_failure_aborts (parseJson : String → Option Json)
    (fs : String → Option (List String)) (prog inp outp sArg eArg : String)
    (rest : List String) (startQ endQ : ℚ) (lines : List String)
    (hs : pyFloatStr sArg = some startQ) (he : pyFloatStr eArg = some endQ)
    (hfs : fs inp = some lines)
    (hbad : parseJson (lines.headD "") = none
      ∨ ∃ l ∈ lines.tail, pyStrip l.toList ≠ [] ∧ parseJson l = none) :
    runClip parseJson fs (prog :: inp :: outp :: sArg :: eArg :: rest)
      = .error .parseErr := by
  simp only [runClip, hs, he, hfs]
  cases hhdr : parseJson (lines.headD "") with
  | none => rfl
  | some header =>
    rcases hbad with hbad | hbad
    · rw [hhdr] at hbad; cases hbad
    · rw [parseEvents_of_bad_line parseJson lines.tail hbad]

/-- Witness for C5: a recording whose event line `oops` is not JSON. -/
theorem parse_failure_aborts_witness :
    badFs "in.cast" = some badLines
    ∧ (∃ l ∈ badLines.tail, pyStrip l.toList ≠ [] ∧ badParseJson l = none)
    ∧ runClip badParseJson badFs ["cast_clip.py", "in.cast", "out.cast", "0", "1"]
        = .error .parseErr :=
  ⟨rfl, ⟨"oops", List.mem_cons_self _ _, by with_unfolding_all decide, rfl⟩,
   parse_failure_aborts badParseJson badFs "cast_clip.py" "in.cast" "out.cast" "0" "1"
     [] 0 1 badLines (by with_unfolding_all rfl) (by with_unfolding_all rfl) rfl
     (Or.inr ⟨"oops", List.mem_cons_self _ _, by with_unfolding_all decide, rfl⟩)⟩

/-- Claim C6 counterexample: a run with five positional arguments (one more
than four) succeeds and writes the output recording, instead of exiting
non-zero and touching no files — `sys.argv` entries past index 4 are simply
never read. -/
theorem extra_argument_run_succeeds :
    runClip demoParseJson demoFs
        ["cast_clip.py", "in.cast", "out.cast", "0", "1", "extra"]
      = .ok ⟨.obj [("duration", .num (1/2))], [.arr [.num (1/2), .str "o", .str "hi"]]⟩ := by
  with_unfolding_all rfl

/-- Claim C6 as amended: with fewer than four positional arguments the run
aborts with an argument error before touching any file, while arguments past
the fourth are ignored — the run behaves exactly as if only the first four
had been given. -/
theorem argument_count_behavior (parseJson : String → Option Json)
    (fs : String → Option (List String)) :
    (∀ argv : List String, argv.length < 5 → runClip parseJson fs argv = .error .argErr)
    ∧ ∀ prog inp outp sArg eArg rest,
        runClip parseJson fs (prog :: inp :: outp :: sArg :: eArg :: rest)
          = runClip parseJson fs [prog, inp, outp, sArg, eArg] := by
  constructor
  · intro argv hlen
    rcases argv with _ | ⟨a, _ | ⟨b, _ | ⟨c, _ | ⟨d, _ | ⟨e, rest⟩⟩⟩⟩⟩
    · rfl
    · rfl
    · rfl
    · rfl
    · rfl
    · simp only [List.length_cons] at hlen
      omega
  · intro prog inp outp sArg eArg rest
    rfl

/-- Witness for the amended C6: two positional arguments abort the run. -/
theorem argument_count_behavior_witness :
    runClip demoParseJson demoFs ["cast_clip.py", "in.cast"] = .error .argErr :=
  (argument_count_behavior demoParseJson demoFs).1 ["cast_clip.py", "in.cast"]
    (by decide)

/-- Claim C7 counterexample: an event whose element 0 is the JSON *string*
`"1.5"` — not a numeric JSON value — is silently accepted: `float("1.5")`
parses it, the run succeeds, and the event is emitted with timestamp `1.5`. -/
theorem string_timestamp_accepted :
    runClip strTimeParseJson strTimeFs
        ["cast_clip.py", "rec.cast", "out.cast", "0", "2"]
      = .ok ⟨.obj [("duration", .num (3/2))], [.arr [.num (3/2), .str "o", .str "x"]]⟩ := by
  with_unfolding_all rfl

/-- Claim C7 as amended: the run fails on an event whose element 0 Python's
`float()` rejects — `null`, an array, an object, or a string that does not
parse as a float (`pyFloat x = none`); but a numeric string such as `"1.5"`
(or a boolean) is accepted, with `float()`'s value as the timestamp. -/
theorem nonfloatable_timestamp_fails (start_s end_s : ℚ) (x : Json)
    (rest post : List Json) (hx : pyFloat x = none) :
    ∀ pre : List Json, ∃ err,
      clipEvents start_s end_s (pre ++ .arr (x :: rest) :: post) = .error err := by
  intro pre
  induction pre with
  | nil =>
    refine ⟨.floatErr, ?_⟩
    simp only [List.nil_append, clipEvents, pyIndex0]
    rw [hx]
  | cons p ps ih =>
    cases hidx : pyIndex0 p with
    | none =>
      refine ⟨.typeErr, ?_⟩
      rw [List.cons_append]
      simp [clipEvents, hidx]
    | some e0 =>
      cases hfl : pyFloat e0 with
      | none =>
        refine ⟨.floatErr, ?_⟩
        rw [List.cons_append]
        simp [clipEvents, hidx, hfl]
      | some t =>
        rw [List.cons_append]
        simp only [clipEvents, hidx, hfl]
        by_cases hin : start_s ≤ t ∧ t ≤ end_s
        · rw [if_pos hin]
          cases hset : setIndex0 p (.num (t - start_s)) with
          | error err => exact ⟨err, rfl⟩
          | ok p' =>
            obtain ⟨err, herr⟩ := ih
            exact ⟨err, by rw [herr]⟩
        · rw [if_neg hin]
          exact ih

/-- Witness for the amended C7: an event with `null` in element 0 aborts. -/
theorem nonfloatable_timestamp_fails_witness :
    ∃ err, clipEvents 0 1 [.arr [.null, .str "o", .str "x"]] = .error err :=
  nonfloatable_timestamp_fails 0 1 .null [.str "o", .str "x"] [] rfl []

/-- Claim C8: when `start_s > end_s`, the transformation still succeeds on a
recording whose events carry readable timestamps and whose header is a JSON
object, and the output has zero events and `duration = 0`. -/
theorem start_after_end_yields_empty (start_s end_s : ℚ) (r : Recording)
    (hgt : end_s < start_s)
    (hw : ∀ ev ∈ r.events, ∃ t, time0 ev = some t)
    (kvs : List (String × Json)) (hh : r.header = .obj kvs) :
    ∃ out, clipRecording start_s end_s r = .ok out
      ∧ out.events = []
      ∧ jLookup out.header "duration" = some (.num 0) := by
  refine ⟨⟨.obj (dictSet kvs "duration" (.num 0)), []⟩, ?_, rfl, ?_⟩
  · unfold clipRecording
    rw [clipEvents_empty_of_gt hgt r.events hw]
    simp [setDuration, hh, durationOf, pyMaxD]
  · simp [jLookup, assocFind_dictSet_self]

/-- Witness for C8: clipping `lateRec` with `start = 2 > end = 1`. -/
theorem start_after_end_yields_empty_witness :
    (1:ℚ) < 2
    ∧ ∃ out, clipRecording 2 1 lateRec = .ok out
        ∧ out.events = []
        ∧ jLookup out.header "duration" = some (.num 0) :=
  ⟨by with_unfolding_all decide,
   start_after_end_yields_empty 2 1 lateRec (by with_unfolding_all decide)
     (by
       intro ev hev
       simp only [lateRec, List.mem_singleton] at hev
       subst hev
       exact ⟨1, rfl⟩)
     [] rfl⟩

/-- Claim C9: every event of a clip's output lies in `[0, duration]`, and
therefore re-clipping the output with `start_s = 0` and `end_s` equal to its
duration reproduces the output unchanged. -/
theorem clip_roundtrip_noop (start_s end_s : ℚ) (r out : Recording)
    (h : clipRecording start_s end_s r = .ok out) :
    (∀ ev ∈ out.events, ∃ t, time0 ev = some t ∧ 0 ≤ t ∧ t ≤ durationOf out.events)
    ∧ clipRecording 0 (durationOf out.events) out = .ok out := by
  obtain ⟨clipped, kvs, hce, hh, hout⟩ := clipRecording_ok h
  subst hout
  dsimp only
  have hshape : ∀ ev ∈ clipped,
      ∃ t rest, ev = .arr (.num t :: rest) ∧ 0 ≤ t ∧ t ≤ durationOf clipped := by
    intro ev hm
    obtain ⟨u, rest, hev, hu, h0u, -⟩ := clipEvents_ok_mem hce hm
    refine ⟨u, rest, hev, h0u, ?_⟩
    unfold durationOf
    exact le_pyMaxD 0 (List.mem_filterMap.2 ⟨ev, hm, hu⟩)
  constructor
  · intro ev hm
    obtain ⟨t, rest, hev, h0, hd⟩ := hshape ev hm
    refine ⟨t, ?_, h0, hd⟩
    rw [hev]
    rfl
  · unfold clipRecording
    dsimp only
    rw [clipEvents_id clipped hshape]
    simp only [setDuration, dictSet_dictSet]

/-- Witness for C9 at the spec's round-trip scenario. -/
theorem clip_roundtrip_noop_witness :
    clipRecording 1 2 sampleRec = .ok sampleClip
    ∧ ((∀ ev ∈ sampleClip.events,
          ∃ t, time0 ev = some t ∧ 0 ≤ t ∧ t ≤ durationOf sampleClip.events)
      ∧ clipRecording 0 (durationOf sampleClip.events) sampleClip = .ok sampleClip) :=
  ⟨by with_unfolding_all rfl,
   clip_roundtrip_noop 1 2 sampleRec sampleClip (by with_unfolding_all rfl)⟩

/-- Claim C10: the output header agrees with the input header on every key
other than `duration`, and always contains a `duration` key — also when the
input header had none. -/
theorem header_passthrough (start_s end_s : ℚ) (r out : Recording)
    (h : clipRecording start_s end_s r = .ok out) :
    (∀ k, ¬ k = "duration" → jLookup out.header k = jLookup r.header k)
    ∧ ∃ d, jLookup out.header "duration" = some (.num d) := by
  obtain ⟨clipped, kvs, hce, hh, hout⟩ := clipRecording_ok h
  subst hout
  rw [hh]
  constructor
  · intro k hk
    dsimp only
    simp only [jLookup]
    exact assocFind_dictSet_ne "duration" k (.num (durationOf clipped)) hk kvs
  · exact ⟨durationOf clipped, by simp [jLookup, assocFind_dictSet_self]⟩

/-- Witness for C10: `metaRec` has no `duration` key; clipping `[5, 6]`
keeps `version` and `width` and adds `duration = 0`. -/
theorem header_passthrough_witness :
    clipRecording 5 6 metaRec = .ok metaClip
    ∧ ((∀ k, ¬ k = "duration" → jLookup metaClip.header k = jLookup metaRec.header k)
      ∧ ∃ d, jLookup metaClip.header "duration" = some (.num d)) :=
  ⟨by with_unfolding_all rfl,
   header_passthrough 5 6 metaRec metaClip (by with_unfolding_all rfl)⟩
